import Mathlib

/-!
Verification of the résumé/job matching core and the application loop of the
LinkedIn job automation repository (`resume_parser.py`, `linkedin_enhanced.py`).

The Python source is shallowly embedded: pure functions become Lean functions,
the Selenium driver becomes an explicit oracle parameter, Python floats become
rationals, and Python exceptions become `Except`/`Option` values.  Regular
expressions appearing in the source are hand-compiled to deterministic matchers
whose backtracking behaviour coincides with CPython `re` on the concrete
patterns involved (each optional item is followed by a character that the
optional item itself can never start with, so maximal munch is exact; the one
genuinely backtracking quantifier, the country-code `\d{1,3}` of the phone
pattern, is expanded into its three alternatives in greedy order).
Text is modelled at the level of ASCII characters.
-/

/-! ### Python string primitives -/

/-- ASCII lower-casing of one character, as Python `str.lower` acts on ASCII. -/
def asciiLower (c : Char) : Char :=
  if 'A' ≤ c ∧ c ≤ 'Z' then Char.ofNat (c.toNat + 32) else c

/-- Python `text.lower()` restricted to ASCII text. -/
def strLower (s : String) : String :=
  String.mk (s.data.map asciiLower)

/-- `startsWithC n h` : the character list `n` is a prefix of `h`. -/
def startsWithC : List Char → List Char → Bool
  | [], _ => true
  | _ :: _, [] => false
  | a :: as, b :: bs => a == b && startsWithC as bs

/-- Occurrence of `n` as a contiguous substring of `h` (Python `n in h`). -/
def isSubC (n : List Char) : List Char → Bool
  | [] => n.isEmpty
  | c :: r => startsWithC n (c :: r) || isSubC n r

/-- Python `needle in hay` on strings. -/
def pyIn (needle hay : String) : Bool :=
  isSubC needle.data hay.data

theorem startsWithC_iff (n h : List Char) : startsWithC n h = true ↔ n <+: h := by
  induction n generalizing h with
  | nil => simp [startsWithC]
  | cons a as ih =>
    cases h with
    | nil => simp [startsWithC]
    | cons b bs =>
      rw [show startsWithC (a :: as) (b :: bs) = (a == b && startsWithC as bs) from rfl,
        Bool.and_eq_true, beq_iff_eq, ih, List.cons_prefix_cons]

theorem isSubC_iff (n h : List Char) : isSubC n h = true ↔ n <:+: h := by
  induction h with
  | nil =>
    simp [isSubC, List.isEmpty_iff]
  | cons c r ih =>
    simp [isSubC, List.infix_cons_iff, startsWithC_iff, ih]

/-! ### `ResumeParser` (resume_parser.py)

`extract_education` and the e-mail half of `extract_contact_info` are not used
by any matching computation and are left out of the embedded record. -/

/-- The fixed skill catalog `ResumeParser.tech_skills` (dict insertion order). -/
def tech_skills : List (String × List String) :=
  [("programming", ["python", "java", "javascript", "c++", "c#", "php", "ruby",
                    "go", "rust", "swift", "kotlin"]),
   ("web", ["html", "css", "react", "angular", "vue", "node.js", "express",
            "django", "flask", "spring"]),
   ("database", ["sql", "mysql", "postgresql", "mongodb", "redis",
                 "elasticsearch", "oracle", "sqlite"]),
   ("cloud", ["aws", "azure", "gcp", "docker", "kubernetes", "terraform",
              "jenkins", "ci/cd"]),
   ("data", ["pandas", "numpy", "matplotlib", "scikit-learn", "tensorflow",
             "pytorch", "spark", "hadoop"]),
   ("tools", ["git", "jira", "confluence", "slack", "trello", "figma",
              "photoshop", "excel"])]

/-- `ResumeParser.experience_keywords` (dict insertion order). -/
def experience_keywords : List (String × List String) :=
  [("junior", ["junior", "entry", "associate", "intern", "0-2 years", "graduate"]),
   ("mid", ["mid", "intermediate", "2-5 years", "3-7 years", "experienced"]),
   ("senior", ["senior", "lead", "principal", "5+ years", "7+ years", "expert",
               "architect"])]

/-- `ResumeParser.extract_skills`: for each catalog category keep, in catalog
order, the tokens occurring as substrings of the (already lower-cased) text. -/
def extract_skills (text : String) : List (String × List String) :=
  tech_skills.map (fun p => (p.1, p.2.filter (fun sk => pyIn sk text)))

/-- `ResumeParser.extract_experience_level`: first category (in fixed order)
one of whose keywords occurs in the text, else `"unknown"`. -/
def extract_experience_level (text : String) : String :=
  match experience_keywords.find? (fun p => p.2.any (fun kw => pyIn kw text)) with
  | some p => p.1
  | none => "unknown"

/-! #### Years-of-experience extraction

The three patterns of `extract_years_experience`:
  `(\d+)\+?\s*years?\s*(?:of\s*)?experience`
  `(\d+)\+?\s*years?\s*in`
  `experience\s*(?:of\s*)?(\d+)\+?\s*years?`
compiled to deterministic matchers (see the header note on determinism). -/

def isDigitC (c : Char) : Bool := '0' ≤ c && c ≤ '9'

/-- Python `\s` : space, tab, newline, carriage return, vertical tab, form feed. -/
def isSpaceC (c : Char) : Bool :=
  c == ' ' || c == '\t' || c == '\n' || c == '\r' || c == '\x0b' || c == '\x0c'

/-- Maximal run of digits at the front (`\d+`, greedy; the continuation of each
pattern can never start with a digit, so no backtracking into the run occurs). -/
def takeDigits : List Char → List Char × List Char
  | [] => ([], [])
  | c :: r =>
    if isDigitC c then
      let p := takeDigits r
      (c :: p.1, p.2)
    else ([], c :: r)

/-- `\s*` (greedy; each following literal is never a space character). -/
def dropSpacesC : List Char → List Char
  | [] => []
  | c :: r => if isSpaceC c then dropSpacesC r else c :: r

/-- Consume a literal, returning the remainder. -/
def stripLit : List Char → List Char → Option (List Char)
  | [], s => some s
  | _ :: _, [] => none
  | a :: as, b :: bs => if a == b then stripLit as bs else none

/-- Numeric value of a digit run (Python `int(match)`). -/
def digitsToNat (ds : List Char) : Nat :=
  ds.foldl (fun n c => n * 10 + (c.toNat - 48)) 0

/-- Shared head `(\d+)\+?\s*years?` of the first two patterns; returns the
captured number and the remainder.  The `+`, spaces and plural `s` are
consumed greedily; the respective follow sets (`y`, `y`, then space/`o`/`e`/`i`)
exclude them, so this equals the backtracking semantics. -/
def matchNumYears (s : List Char) : Option (Nat × List Char) :=
  let p := takeDigits s
  if p.1.isEmpty then none
  else
    let r2 := match p.2 with
      | '+' :: t => t
      | other => other
    let r3 := dropSpacesC r2
    match stripLit ['y', 'e', 'a', 'r'] r3 with
    | none => none
    | some r4 =>
      let r5 := match r4 with
        | 's' :: t => t
        | other => other
      some (digitsToNat p.1, r5)

/-- `(?:of\s*)?experience` with the regex backtracking made explicit: if the
`of` branch is taken but `experience` then fails, retry without `of`. -/
def matchOfExperience (s : List Char) : Option (List Char) :=
  match stripLit ['o', 'f'] s with
  | some r =>
    match stripLit "experience".data (dropSpacesC r) with
    | some r2 => some r2
    | none => stripLit "experience".data s
  | none => stripLit "experience".data s

/-- Pattern 1: `(\d+)\+?\s*years?\s*(?:of\s*)?experience`. -/
def matchYears1 (s : List Char) : Option (Nat × List Char) :=
  match matchNumYears s with
  | none => none
  | some (n, r) =>
    match matchOfExperience (dropSpacesC r) with
    | some rest => some (n, rest)
    | none => none

/-- Pattern 2: `(\d+)\+?\s*years?\s*in`. -/
def matchYears2 (s : List Char) : Option (Nat × List Char) :=
  match matchNumYears s with
  | none => none
  | some (n, r) =>
    match stripLit ['i', 'n'] (dropSpacesC r) with
    | some rest => some (n, rest)
    | none => none

/-- `(?:of\s*)?(\d+)` of pattern 3, with the regex fallback made explicit. -/
def matchOfDigits (s : List Char) : Option (List Char × List Char) :=
  match stripLit ['o', 'f'] s with
  | some r =>
    let p := takeDigits (dropSpacesC r)
    if p.1.isEmpty then
      let q := takeDigits s
      if q.1.isEmpty then none else some q
    else some p
  | none =>
    let q := takeDigits s
    if q.1.isEmpty then none else some q

/-- Pattern 3: `experience\s*(?:of\s*)?(\d+)\+?\s*years?`. -/
def matchYears3 (s : List Char) : Option (Nat × List Char) :=
  match stripLit "experience".data s with
  | none => none
  | some r1 =>
    match matchOfDigits (dropSpacesC r1) with
    | none => none
    | some (ds, r2) =>
      let r3 := match r2 with
        | '+' :: t => t
        | other => other
      match stripLit ['y', 'e', 'a', 'r'] (dropSpacesC r3) with
      | none => none
      | some r5 =>
        let r6 := match r5 with
          | 's' :: t => t
          | other => other
        some (digitsToNat ds, r6)

/-- `re.findall` scan: try the matcher at each position, restart after the end
of every (non-overlapping, leftmost) match.  Every matcher used consumes at
least one character on success, so `fuel = length` never runs out. -/
def findAllAux (m : List Char → Option (Nat × List Char)) :
    Nat → List Char → List Nat
  | 0, _ => []
  | _ + 1, [] => []
  | fuel + 1, c :: rest =>
    match m (c :: rest) with
    | some (v, r) => v :: findAllAux m fuel r
    | none => findAllAux m fuel rest

def findAllMatches (m : List Char → Option (Nat × List Char)) (s : List Char) :
    List Nat :=
  findAllAux m s.length s

/-- `max(years)` of a Python non-empty int list (all values here are `Nat`). -/
def maxOr0 : List Nat → Nat
  | [] => 0
  | x :: xs => xs.foldl Nat.max x

/-- All numeric matches of the three patterns, in the order the source
accumulates them (`years.extend` per pattern). -/
def yearsMatches (text : String) : List Nat :=
  findAllMatches matchYears1 text.data
    ++ findAllMatches matchYears2 text.data
    ++ findAllMatches matchYears3 text.data

/-- `ResumeParser.extract_years_experience`: `max(years) if years else 0`. -/
def extract_years_experience (text : String) : Nat :=
  maxOr0 (yearsMatches text)

/-! #### Phone extraction

The phone pattern of `extract_contact_info`:
  `(\+\d{1,3}[-.\s]?)?\(?\d{3}\)?[-.\s]?\d{3}[-.\s]?\d{4}`
The single capture group is the optional country code.  `re.findall` on a
one-group pattern returns the group captures (the empty string when the group
did not participate), and the source stores `phones[0]`. -/

/-- The character class `[-.\s]`. -/
def isSepC (c : Char) : Bool := c == '-' || c == '.' || isSpaceC c

/-- Exactly `n` characters satisfying `p` (`\d{3}`, `\d{4}`). -/
def takeExact : Nat → (Char → Bool) → List Char → Option (List Char × List Char)
  | 0, _, s => some ([], s)
  | _ + 1, _, [] => none
  | n + 1, p, c :: r =>
    if p c then
      match takeExact n p r with
      | some q => some (c :: q.1, q.2)
      | none => none
    else none

/-- A greedy optional single character (`\(?`, `\)?`, `[-.\s]?`).  In every
position this is used, the following regex item can never match the optional
character itself, so consuming it when present is exactly the backtracking
semantics. -/
def optTake (p : Char → Bool) : List Char → List Char × List Char
  | [] => ([], [])
  | c :: r => if p c then ([c], r) else ([], c :: r)

/-- The group-free part `\(?\d{3}\)?[-.\s]?\d{3}[-.\s]?\d{4}`; returns the
consumed characters and the remainder. -/
def matchPhoneTail (s : List Char) : Option (List Char × List Char) :=
  let a := optTake (fun c => c == '(') s
  match takeExact 3 isDigitC a.2 with
  | none => none
  | some (d1, s2) =>
    let b := optTake (fun c => c == ')') s2
    let c := optTake isSepC b.2
    match takeExact 3 isDigitC c.2 with
    | none => none
    | some (d2, s5) =>
      let d := optTake isSepC s5
      match takeExact 4 isDigitC d.2 with
      | none => none
      | some (d3, s7) => some (a.1 ++ d1 ++ b.1 ++ c.1 ++ d2 ++ d.1 ++ d3, s7)

/-- One match of the full phone pattern: the country-code capture group and
the whole matched text. -/
structure PhoneMatch where
  group : List Char
  full : List Char
deriving DecidableEq

/-- `\d{n}[-.\s]?` after the `+` of the country-code group, then the tail; the
group has a greedy trailing separator (the tail starts with `(` or a digit,
never a separator). -/
def tryCountryTail (n : Nat) (s1 : List Char) : Option (PhoneMatch × List Char) :=
  match takeExact n isDigitC s1 with
  | none => none
  | some (ds, s2) =>
    let sep := optTake isSepC s2
    match matchPhoneTail sep.2 with
    | none => none
    | some (tail, rest) =>
      some (⟨'+' :: (ds ++ sep.1), '+' :: (ds ++ sep.1) ++ tail⟩, rest)

/-- The full pattern at one position.  `\d{1,3}` is greedy, so the three
lengths are tried in the order 3, 2, 1; if the text starts with `+` and no
group alternative succeeds, the group-absent branch cannot succeed either
(the tail would have to start with `(` or a digit at the `+`). -/
def matchPhoneAt (s : List Char) : Option (PhoneMatch × List Char) :=
  if s.head? = some '+' then
    match tryCountryTail 3 s.tail with
    | some r => some r
    | none =>
      match tryCountryTail 2 s.tail with
      | some r => some r
      | none => tryCountryTail 1 s.tail
  else
    match matchPhoneTail s with
    | none => none
    | some (tail, rest) => some (⟨[], tail⟩, rest)

/-- The `re.findall` scan for the phone pattern (every match consumes at least
ten characters, so `fuel = length` suffices). -/
def phoneFindAux : Nat → List Char → List PhoneMatch
  | 0, _ => []
  | _ + 1, [] => []
  | fuel + 1, c :: rest =>
    match matchPhoneAt (c :: rest) with
    | some (m, r) => m :: phoneFindAux fuel r
    | none => phoneFindAux fuel rest

def phoneMatchesOf (text : String) : List PhoneMatch :=
  phoneFindAux text.data.length text.data

/-- The phone half of the contact dictionary (the e-mail half is disjoint
from every matching computation and is not embedded). -/
structure ContactInfo where
  phone : Option String
deriving DecidableEq

/-- `ResumeParser.extract_contact_info`, phone field: `phones[0]` — the
country-code capture of the first match — when any match exists. -/
def extract_contact_info (text : String) : ContactInfo :=
  { phone := (phoneMatchesOf text).head?.map (fun m => String.mk m.group) }

/-- The structured result of `ResumeParser.analyze_resume_text`
(`education` is omitted, see above). -/
structure ResumeData where
  skills : List (String × List String)
  experience_level : String
  years_experience : Nat
  contact_info : ContactInfo
  raw_text : String
deriving DecidableEq

/-- `ResumeParser.analyze_resume_text`: lower-case once, then extract.  The
contact patterns run on the original text. -/
def analyze_resume_text (text : String) : ResumeData :=
  let text_lower := strLower text
  { skills := extract_skills text_lower
    experience_level := extract_experience_level text_lower
    years_experience := extract_years_experience text_lower
    contact_info := extract_contact_info text
    raw_text := text }

/-- Python dict access on an association list with unique keys. -/
def lookupCat : List (String × List String) → String → List String
  | [], _ => []
  | p :: rest, cat => if p.1 == cat then p.2 else lookupCat rest cat

/-- Skill list of one category of a parsed résumé. -/
def skillsFor (rd : ResumeData) (cat : String) : List String :=
  lookupCat rd.skills cat

/-! ### `JobMatcher` (resume_parser.py)

The TF-IDF vectorization and cosine similarity are scikit-learn library calls;
they are modelled by an oracle `tfidfCos : List String → Except String ℚ`
mapping the two-document corpus either to the similarity value or to a raised
error (e.g. the empty-vocabulary `ValueError`).  Everything else is embedded
from the source. -/

/-- `JobMatcher.format_resume_skills`: `"{category}: {' '.join(skills)} "`,
concatenated over the categories in dict order. -/
def format_resume_skills (rd : ResumeData) : String :=
  rd.skills.foldl
    (fun acc p => acc ++ p.1 ++ ": " ++ String.intercalate " " p.2 ++ " ") ""

/-- The two-document corpus handed to the vectorizer in
`calculate_job_match_score`:
`[f"{raw_text} {skills_text}", job_description.lower()]`. -/
def scoringCorpus (rd : ResumeData) (job_description : String) : List String :=
  [rd.raw_text ++ " " ++ format_resume_skills rd, strLower job_description]

/-- `JobMatcher.calculate_skill_match_boost`: fraction of résumé skill tokens
occurring in `f"{job_title} {job_description}".lower()`. -/
def calculate_skill_match_boost (rd : ResumeData)
    (job_description job_title : String) : ℚ :=
  let job_text := strLower (job_title ++ " " ++ job_description)
  let tm : Nat × Nat := rd.skills.foldl
    (fun acc p =>
      p.2.foldl
        (fun (tm : Nat × Nat) sk =>
          (tm.1 + 1, if pyIn (strLower sk) job_text then tm.2 + 1 else tm.2))
        acc)
    (0, 0)
  if tm.1 = 0 then 0 else (tm.2 : ℚ) / (tm.1 : ℚ)

/-- `JobMatcher.calculate_job_match_score`.  The `try` of the source catches
any error of the vectorization and returns `0.0`; otherwise
`min(similarity * 0.7 + boost * 0.3, 1.0)`. -/
def calculate_job_match_score (tfidfCos : List String → Except String ℚ)
    (rd : ResumeData) (job_description job_title : String) : ℚ :=
  match tfidfCos (scoringCorpus rd job_description) with
  | Except.error _ => 0
  | Except.ok similarity_score =>
    let skill_boost := calculate_skill_match_boost rd job_description job_title
    min (similarity_score * (7 / 10) + skill_boost * (3 / 10)) 1

/-- Floor of a rational as an integer (computable). -/
def ratFloorZ (q : ℚ) : Int := Int.fdiv q.num (q.den : Int)

/-- Nearest integer to `100 * q`, ties to even — the rounding of the Python
format `f"{q:.2f}"` on the exactly representable values that occur here. -/
def round100 (q : ℚ) : Int :=
  let x := q * 100
  let f := ratFloorZ x
  let r := x - (f : ℚ)
  if r < 1 / 2 then f
  else if 1 / 2 < r then f + 1
  else if f % 2 = 0 then f else f + 1

def pad2 (n : Nat) : String :=
  if n < 10 then "0" ++ toString n else toString n

/-- Python `f"{q:.2f}"`. -/
def fmt2 (q : ℚ) : String :=
  let n := round100 q
  let a := n.natAbs
  (if n < 0 then "-" else "") ++ toString (a / 100) ++ "." ++ pad2 (a % 100)

/-- `JobMatcher.is_suitable_job` (default threshold 0.3 at the call sites that
omit it).  The source wraps the body in `try/except`, but every failure of the
underlying scoring is already caught inside `calculate_job_match_score`, so
the body raises nothing and the handler (which would return
`(False, 0.0, f"Error in analysis: {e}")`) is unreachable. -/
def is_suitable_job (tfidfCos : List String → Except String ℚ)
    (rd : ResumeData) (job_description job_title : String)
    (min_score : ℚ) : Bool × ℚ × String :=
  let match_score := calculate_job_match_score tfidfCos rd job_description job_title
  let is_suitable := decide (min_score ≤ match_score)
  let explanation :=
    if is_suitable then
      "Good match (Score: " ++ fmt2 match_score ++ ") - Skills and experience align well"
    else
      "Poor match (Score: " ++ fmt2 match_score ++ ") - Limited skill overlap"
  (is_suitable, match_score, explanation)

/-! ### Job listings and categorization (linkedin_enhanced.py)

A `Job` is the dictionary built per card in `get_all_job_listings`.  The
driver-dependent pieces of `analyze_and_categorize_jobs` are oracles:
`getDesc` models `get_job_description(url)` and `matcher` the call
`job_matcher.is_suitable_job(resume_data, description, title, min_match_score)`
(returning `(is_suitable, match_score, match_explanation)`); `hasResume`
states whether `self.resume_data` is set. -/

structure Job where
  title : String
  company : String
  location : String
  url : String
  has_easy_apply : Bool
  description : String
  match_score : ℚ
  is_suitable : Bool
  match_explanation : String
deriving DecidableEq

/-- The per-job body of the `analyze_and_categorize_jobs` loop: fetch the
description and score the job when a résumé was parsed, else leave it as
discovered. -/
def scoreJob (hasResume : Bool) (getDesc : String → String)
    (matcher : String → String → Bool × ℚ × String) (j : Job) : Job :=
  if hasResume then
    let d := getDesc j.url
    let r := matcher d j.title
    { j with description := d, is_suitable := r.1, match_score := r.2.1,
             match_explanation := r.2.2 }
  else j

/-- The categorization loop: score each job, append it to the EasyApply or the
non-EasyApply accumulator. -/
def categorizeLoop (hasResume : Bool) (getDesc : String → String)
    (matcher : String → String → Bool × ℚ × String) :
    List Job → List Job × List Job → List Job × List Job
  | [], acc => acc
  | j :: rest, acc =>
    let j2 := scoreJob hasResume getDesc matcher j
    if j2.has_easy_apply then
      categorizeLoop hasResume getDesc matcher rest (acc.1 ++ [j2], acc.2)
    else
      categorizeLoop hasResume getDesc matcher rest (acc.1, acc.2 ++ [j2])

/-- Insertion into a descending-by-`match_score` list, placing the new element
after all existing elements of equal score. -/
def insertByScoreDesc (j : Job) : List Job → List Job
  | [] => [j]
  | k :: ks =>
    if k.match_score < j.match_score then j :: k :: ks
    else k :: insertByScoreDesc j ks

/-- Python `sorted(jobs, key=lambda x: x['match_score'], reverse=True)`:
a stable descending sort, realised as left-to-right stable insertion. -/
def sortByScoreDesc (l : List Job) : List Job :=
  l.foldl (fun acc j => insertByScoreDesc j acc) []

/-- `EnhancedLinkedInAutomation.analyze_and_categorize_jobs`: partition into
(EasyApply, non-EasyApply), each sorted descending by score when a résumé was
parsed. -/
def analyze_and_categorize_jobs (hasResume : Bool) (getDesc : String → String)
    (matcher : String → String → Bool × ℚ × String) (jobs : List Job) :
    List Job × List Job :=
  let p := categorizeLoop hasResume getDesc matcher jobs ([], [])
  if hasResume then (sortByScoreDesc p.1, sortByScoreDesc p.2) else p

/-! ### The application loop (linkedin_enhanced.py)

`apply_to_job` drives the browser; its observable effect on the outcome
collections depends only on which of three cases the driver produces, so the
driver is an oracle `outcome : Job → ApplyOutcome`. -/

/-- Driver behaviour for one `apply_to_job` call:
* `noButton` — no EasyApply button was located (the source logs a warning and
  returns `False` **without recording the job anywhere**);
* `submitted` — `handle_application_process` returned `True`;
* `notSubmitted` — it returned `False`, or an exception was raised mid-flow
  (both append the job to `failed_jobs` and return `False`/falsy). -/
inductive ApplyOutcome where
  | noButton
  | submitted
  | notSubmitted
deriving DecidableEq

/-- The mutable collections of `EnhancedLinkedInAutomation` touched by the
application loop, plus the local `applications_sent` counter. -/
structure RunState where
  applications_sent : Nat
  applied_jobs : List Job
  failed_jobs : List Job
  suitable_jobs : List Job
  unsuitable_jobs : List Job
deriving DecidableEq

def initialRunState : RunState := ⟨0, [], [], [], []⟩

/-- `EnhancedLinkedInAutomation.apply_to_job`: returns the truthiness of the
Python return value together with the updated collections. -/
def apply_to_job (outcome : Job → ApplyOutcome) (st : RunState) (j : Job) :
    Bool × RunState :=
  match outcome j with
  | ApplyOutcome.noButton => (false, st)
  | ApplyOutcome.submitted =>
    (true, { st with applied_jobs := st.applied_jobs ++ [j] })
  | ApplyOutcome.notSubmitted =>
    (false, { st with failed_jobs := st.failed_jobs ++ [j] })

/-- `EnhancedLinkedInAutomation.apply_to_easy_apply_jobs` (default
`max_applications = 50`): stop at the cap, skip unsuitable jobs when a résumé
was parsed, otherwise attempt the application. -/
def apply_to_easy_apply_jobs (hasResume : Bool) (outcome : Job → ApplyOutcome)
    (max_applications : Nat) : List Job → RunState → RunState
  | [], st => st
  | j :: rest, st =>
    if max_applications ≤ st.applications_sent then st
    else if hasResume && !j.is_suitable then
      apply_to_easy_apply_jobs hasResume outcome max_applications rest
        { st with unsuitable_jobs := st.unsuitable_jobs ++ [j] }
    else
      let r := apply_to_job outcome st j
      if r.1 then
        apply_to_easy_apply_jobs hasResume outcome max_applications rest
          { r.2 with applications_sent := r.2.applications_sent + 1,
                     suitable_jobs := r.2.suitable_jobs ++ [j] }
      else
        apply_to_easy_apply_jobs hasResume outcome max_applications rest r.2

/-! ### The EasyApply state machine (`handle_application_process`)

The wizard is an environment `env : Nat → PageObs`: the page observed after
`n` clicks have been performed.  For each of the three controls, `none` means
`find_element` raises `NoSuchElementException`, `some b` means the control was
found with `is_enabled() = b`; `success` is whether the
"Application submitted" header is findable on that page. -/

structure PageObs where
  submit : Option Bool
  next : Option Bool
  review : Option Bool
  success : Bool

/-- The `while attempt < max_attempts` loop of `handle_application_process`,
with `fuel = max_attempts - attempt`.  A missing control jumps to the
`except NoSuchElementException` handler: one final success check, then
`break` / `return False`.  A *disabled* control instead falls through to the
next control check. -/
def happLoop (env : Nat → PageObs) : Nat → Nat → Bool
  | 0, _ => false
  | fuel + 1, clicks =>
    match (env clicks).submit with
    | none => (env clicks).success
    | some se =>
      let k := if se then clicks + 1 else clicks
      if se && (env k).success then true
      else
        match (env k).next with
        | none => (env k).success
        | some ne =>
          if ne then happLoop env fuel (k + 1)
          else
            match (env k).review with
            | none => (env k).success
            | some re =>
              if re then happLoop env fuel (k + 1)
              else happLoop env fuel k

/-- `EnhancedLinkedInAutomation.handle_application_process`
(`max_attempts = 5`, `attempt = 0`). -/
def handle_application_process (env : Nat → PageObs) : Bool :=
  happLoop env 5 0

/-- `happLoop` instrumented with the number of loop iterations executed. -/
def happLoopSteps (env : Nat → PageObs) : Nat → Nat → Bool × Nat
  | 0, _ => (false, 0)
  | fuel + 1, clicks =>
    match (env clicks).submit with
    | none => ((env clicks).success, 1)
    | some se =>
      let k := if se then clicks + 1 else clicks
      if se && (env k).success then (true, 1)
      else
        match (env k).next with
        | none => ((env k).success, 1)
        | some ne =>
          if ne then
            let r := happLoopSteps env fuel (k + 1)
            (r.1, r.2 + 1)
          else
            match (env k).review with
            | none => ((env k).success, 1)
            | some re =>
              if re then
                let r := happLoopSteps env fuel (k + 1)
                (r.1, r.2 + 1)
              else
                let r := happLoopSteps env fuel k
                (r.1, r.2 + 1)

/-- A control counts as usable only when present and enabled. -/
def ctrlEnabled : Option Bool → Bool
  | some true => true
  | _ => false

/-- The state machine as claim C2 of the specification describes it: the three
controls are tried in the priority order Submit, Next, Review; a control that
is absent is treated *identically* to one that is present but disabled, and
only causes fallthrough to the next control type; `Abandoned` arises only when
none of the three is present-and-enabled and no success indicator shows. -/
def happSpecLoop (env : Nat → PageObs) : Nat → Nat → Bool
  | 0, _ => false
  | fuel + 1, clicks =>
    if ctrlEnabled (env clicks).submit then
      if (env (clicks + 1)).success then true
      else happSpecLoop env fuel (clicks + 1)
    else if ctrlEnabled (env clicks).next then happSpecLoop env fuel (clicks + 1)
    else if ctrlEnabled (env clicks).review then happSpecLoop env fuel (clicks + 1)
    else (env clicks).success

def handleApplicationSpec (env : Nat → PageObs) : Bool :=
  happSpecLoop env 5 0

/-- Decision of a single wizard step, for the amended reading of claim C2. -/
inductive StepAction where
  | submitted
  | abandoned
  | advance (clicks : Nat)

/-- The Next/Review part of a step (after the Submit check, at click count
`clicks`): a found-and-enabled control is clicked and the loop re-entered; a
found-but-disabled control falls through; a missing control triggers the final
success check. -/
def afterSubmitCheck (env : Nat → PageObs) (clicks : Nat) : StepAction :=
  match (env clicks).next with
  | none =>
    if (env clicks).success then StepAction.submitted else StepAction.abandoned
  | some true => StepAction.advance (clicks + 1)
  | some false =>
    match (env clicks).review with
    | none =>
      if (env clicks).success then StepAction.submitted else StepAction.abandoned
    | some true => StepAction.advance (clicks + 1)
    | some false => StepAction.advance clicks

/-- One full step: Submit is checked first; if found and enabled it is clicked
and the success indicator decides between `Submitted` and falling through to
the Next/Review checks on the new page; if found but disabled the Next/Review
checks run on the same page; if missing, the final success check decides
between `Submitted` and `Abandoned`. -/
def stepAction (env : Nat → PageObs) (clicks : Nat) : StepAction :=
  match (env clicks).submit with
  | none =>
    if (env clicks).success then StepAction.submitted else StepAction.abandoned
  | some false => afterSubmitCheck env clicks
  | some true =>
    if (env (clicks + 1)).success then StepAction.submitted
    else afterSubmitCheck env (clicks + 1)

/-- The amended state machine: iterate `stepAction` at most five times,
`Abandoned` when the step budget runs out. -/
def happAmendedLoop (env : Nat → PageObs) : Nat → Nat → Bool
  | 0, _ => false
  | fuel + 1, clicks =>
    match stepAction env clicks with
    | StepAction.submitted => true
    | StepAction.abandoned => false
    | StepAction.advance k => happAmendedLoop env fuel k

/-! ### Helper lemmas -/

theorem le_foldl_max (xs : List Nat) (a : Nat) : a ≤ xs.foldl Nat.max a := by
  induction xs generalizing a with
  | nil => simp
  | cons x xs ih => exact le_trans (Nat.le_max_left a x) (ih (Nat.max a x))

theorem mem_le_foldl_max (xs : List Nat) (a y : Nat) (hy : y ∈ xs) :
    y ≤ xs.foldl Nat.max a := by
  induction xs generalizing a with
  | nil => cases hy
  | cons x xs ih =>
    rcases List.mem_cons.mp hy with h | h
    · subst h
      exact le_trans (Nat.le_max_right a y) (le_foldl_max xs _)
    · exact ih _ h

theorem foldl_max_mem (xs : List Nat) (a : Nat) :
    xs.foldl Nat.max a = a ∨ xs.foldl Nat.max a ∈ xs := by
  induction xs generalizing a with
  | nil => exact Or.inl rfl
  | cons x xs ih =>
    rw [List.foldl_cons]
    rcases ih (Nat.max a x) with h | h
    · rcases Nat.le_total a x with hle | hle
      · right
        rw [h, show Nat.max a x = x from max_eq_right hle]
        exact List.mem_cons_self x xs
      · left
        rw [h, show Nat.max a x = a from max_eq_left hle]
    · exact Or.inr (List.mem_cons_of_mem x h)

theorem le_maxOr0 (l : List Nat) (y : Nat) (hy : y ∈ l) : y ≤ maxOr0 l := by
  cases l with
  | nil => cases hy
  | cons x xs =>
    rcases List.mem_cons.mp hy with h | h
    · subst h
      exact le_foldl_max xs y
    · exact mem_le_foldl_max xs x y h

theorem maxOr0_mem (l : List Nat) (h : l ≠ []) : maxOr0 l ∈ l := by
  cases l with
  | nil => exact absurd rfl h
  | cons x xs =>
    rcases foldl_max_mem xs x with h2 | h2
    · rw [show maxOr0 (x :: xs) = xs.foldl Nat.max x from rfl, h2]
      exact List.mem_cons_self x xs
    · exact List.mem_cons_of_mem x h2

theorem lookupCat_map (l : List (String × List String))
    (f : String → List String → List String) (cat : String) (cats : List String)
    (hmem : (cat, cats) ∈ l) (hnd : (l.map Prod.fst).Nodup) :
    lookupCat (l.map (fun p => (p.1, f p.1 p.2))) cat = f cat cats := by
  induction l with
  | nil => cases hmem
  | cons a rest ih =>
    rw [List.map_cons, lookupCat]
    rcases List.mem_cons.mp hmem with h | h
    · rw [← h]
      simp
    · have hne : ¬(a.1 == cat) = true := by
        intro he
        have hkey : cat ∈ rest.map Prod.fst :=
          List.mem_map.mpr ⟨(cat, cats), h, rfl⟩
        have := (List.nodup_cons.mp hnd).1
        exact this (beq_iff_eq.mp he ▸ hkey)
      rw [if_neg hne]
      exact ih h (List.nodup_cons.mp hnd).2


theorem takeExact_length (n : Nat) (p : Char → Bool) :
    ∀ (s l r : List Char), takeExact n p s = some (l, r) → l.length = n := by
  induction n with
  | zero =>
    intro s l r h
    simp only [takeExact, Option.some.injEq, Prod.mk.injEq] at h
    rw [← h.1]
    rfl
  | succ k ih =>
    intro s l r h
    cases s with
    | nil => simp [takeExact] at h
    | cons c cs =>
      simp only [takeExact] at h
      by_cases hp : p c = true
      · rw [if_pos hp] at h
        cases hq : takeExact k p cs with
        | none => rw [hq] at h; cases h
        | some q =>
          rw [hq] at h
          simp only [Option.some.injEq, Prod.mk.injEq] at h
          rw [← h.1]
          simp [ih cs q.1 q.2 hq]
      · rw [if_neg hp] at h
        cases h

theorem matchPhoneTail_length (s tail r : List Char)
    (h : matchPhoneTail s = some (tail, r)) : 10 ≤ tail.length := by
  rw [matchPhoneTail] at h
  cases h1 : takeExact 3 isDigitC (optTake (fun c => c == '(') s).2 with
  | none => simp [h1] at h
  | some q1 =>
    obtain ⟨d1, s2⟩ := q1
    simp only [h1] at h
    cases h2 : takeExact 3 isDigitC
        (optTake isSepC (optTake (fun c => c == ')') s2).2).2 with
    | none => simp [h2] at h
    | some q2 =>
      obtain ⟨d2, s5⟩ := q2
      simp only [h2] at h
      cases h3 : takeExact 4 isDigitC (optTake isSepC s5).2 with
      | none => simp [h3] at h
      | some q3 =>
        obtain ⟨d3, s7⟩ := q3
        simp only [h3, Option.some.injEq, Prod.mk.injEq] at h
        have l1 := takeExact_length 3 isDigitC _ _ _ h1
        have l2 := takeExact_length 3 isDigitC _ _ _ h2
        have l3 := takeExact_length 4 isDigitC _ _ _ h3
        rw [← h.1]
        simp [List.length_append, l1, l2, l3]
        omega

theorem tryCountryTail_proper (n : Nat) (s1 : List Char) (m : PhoneMatch)
    (r : List Char) (h : tryCountryTail n s1 = some (m, r)) :
    ∃ t, 10 ≤ t.length ∧ m.full = m.group ++ t := by
  rw [tryCountryTail] at h
  cases h1 : takeExact n isDigitC s1 with
  | none => simp [h1] at h
  | some q =>
    obtain ⟨ds, s2⟩ := q
    simp only [h1] at h
    cases h2 : matchPhoneTail (optTake isSepC s2).2 with
    | none => simp [h2] at h
    | some q2 =>
      obtain ⟨tail, rest⟩ := q2
      simp only [h2, Option.some.injEq, Prod.mk.injEq] at h
      obtain ⟨hm, hr⟩ := h
      subst hm
      exact ⟨tail, matchPhoneTail_length _ _ _ h2, by simp⟩

theorem matchPhoneAt_proper (s : List Char) (m : PhoneMatch) (r : List Char)
    (h : matchPhoneAt s = some (m, r)) :
    ∃ t, 10 ≤ t.length ∧ m.full = m.group ++ t := by
  rw [matchPhoneAt] at h
  by_cases hh : s.head? = some '+'
  · rw [if_pos hh] at h
    cases h3 : tryCountryTail 3 s.tail with
    | some v =>
      simp only [h3, Option.some.injEq] at h
      exact tryCountryTail_proper 3 s.tail m r (by rw [h3, ← h])
    | none =>
      simp only [h3] at h
      cases h2 : tryCountryTail 2 s.tail with
      | some v =>
        simp only [h2, Option.some.injEq] at h
        exact tryCountryTail_proper 2 s.tail m r (by rw [h2, ← h])
      | none =>
        simp only [h2] at h
        exact tryCountryTail_proper 1 s.tail m r h
  · rw [if_neg hh] at h
    cases h4 : matchPhoneTail s with
    | none => simp [h4] at h
    | some q =>
      obtain ⟨tail, rest⟩ := q
      simp only [h4, Option.some.injEq, Prod.mk.injEq] at h
      obtain ⟨hm, hr⟩ := h
      subst hm
      exact ⟨tail, matchPhoneTail_length _ _ _ h4, by simp⟩

theorem phoneFindAux_proper :
    ∀ (fuel : Nat) (s : List Char) (m : PhoneMatch), m ∈ phoneFindAux fuel s →
      ∃ t, 10 ≤ t.length ∧ m.full = m.group ++ t := by
  intro fuel
  induction fuel with
  | zero => intro s m hm; cases hm
  | succ f ih =>
    intro s m hm
    cases s with
    | nil => cases hm
    | cons c cs =>
      rw [phoneFindAux] at hm
      cases hma : matchPhoneAt (c :: cs) with
      | none =>
        rw [hma] at hm
        exact ih cs m hm
      | some v =>
        rw [hma] at hm
        rcases List.mem_cons.mp hm with hEq | hMem
        · subst hEq
          exact matchPhoneAt_proper (c :: cs) v.1 v.2 (by rw [hma])
        · exact ih v.2 m hMem

/-- `clamp(x, 0, 1)` as the specification words it. -/
def clamp01 (x : ℚ) : ℚ := min (max x 0) 1

/-- All résumé skill tokens, across all categories. -/
def allSkillTokens (rd : ResumeData) : List String :=
  (rd.skills.map Prod.snd).flatten

/-- The skill boost as claim C6 words it: the count of résumé skill tokens
literally occurring (case-insensitively) in the job title, a space, and the
job description, divided by the total number of tokens; `0` with no tokens. -/
def skillBoostSpec (rd : ResumeData) (job_description job_title : String) : ℚ :=
  let toks := allSkillTokens rd
  if toks.length = 0 then 0
  else
    ((toks.countP (fun sk =>
        pyIn (strLower sk) (strLower (job_title ++ " " ++ job_description)))) : ℚ)
      / (toks.length : ℚ)

theorem foldl_skill_count (p : String → Bool) (sl : List String) (a : Nat × Nat) :
    sl.foldl (fun tm sk => (tm.1 + 1, if p sk then tm.2 + 1 else tm.2)) a
      = (a.1 + sl.length, a.2 + sl.countP p) := by
  induction sl generalizing a with
  | nil => simp
  | cons x xs ih =>
    rw [List.foldl_cons, ih]
    by_cases hx : p x = true
    · simp [List.countP_cons, hx]
      omega
    · simp [List.countP_cons, hx]
      omega

theorem foldl_skills_count (p : String → Bool)
    (skills : List (String × List String)) (a : Nat × Nat) :
    skills.foldl
        (fun acc q =>
          q.2.foldl (fun (tm : Nat × Nat) sk =>
            (tm.1 + 1, if p sk then tm.2 + 1 else tm.2)) acc)
        a
      = (a.1 + ((skills.map Prod.snd).flatten).length,
         a.2 + ((skills.map Prod.snd).flatten).countP p) := by
  induction skills generalizing a with
  | nil => simp
  | cons q rest ih =>
    rw [List.foldl_cons, foldl_skill_count, ih]
    simp [List.countP_append]
    omega

theorem skill_boost_eq_spec (rd : ResumeData) (d t : String) :
    calculate_skill_match_boost rd d t = skillBoostSpec rd d t := by
  simp only [calculate_skill_match_boost, skillBoostSpec, allSkillTokens,
    foldl_skills_count]
  simp

theorem skillBoostSpec_nonneg (rd : ResumeData) (d t : String) :
    0 ≤ skillBoostSpec rd d t := by
  unfold skillBoostSpec
  by_cases h : (allSkillTokens rd).length = 0
  · simp [h]
  · rw [if_neg h]
    positivity

theorem skillBoostSpec_le_one (rd : ResumeData) (d t : String) :
    skillBoostSpec rd d t ≤ 1 := by
  unfold skillBoostSpec
  by_cases h : (allSkillTokens rd).length = 0
  · simp [h]
  · rw [if_neg h]
    rw [div_le_one (by positivity)]
    exact_mod_cast List.countP_le_length _

theorem categorizeLoop_eq (hasResume : Bool) (getDesc : String → String)
    (matcher : String → String → Bool × ℚ × String) (l : List Job)
    (e n : List Job) :
    categorizeLoop hasResume getDesc matcher l (e, n)
      = (e ++ (l.map (scoreJob hasResume getDesc matcher)).filter
            (fun k => k.has_easy_apply),
         n ++ (l.map (scoreJob hasResume getDesc matcher)).filter
            (fun k => !k.has_easy_apply)) := by
  induction l generalizing e n with
  | nil => simp [categorizeLoop]
  | cons j rest ih =>
    rw [categorizeLoop]
    by_cases h : (scoreJob hasResume getDesc matcher j).has_easy_apply = true
    · rw [if_pos h, ih]
      simp [h]
    · rw [if_neg h, ih]
      simp at h
      simp [h]

theorem insertByScoreDesc_perm (j : Job) (l : List Job) :
    List.Perm (insertByScoreDesc j l) (j :: l) := by
  induction l with
  | nil => exact List.Perm.refl _
  | cons k ks ih =>
    rw [insertByScoreDesc]
    by_cases h : k.match_score < j.match_score
    · rw [if_pos h]
    · rw [if_neg h]
      exact (ih.cons k).trans (List.Perm.swap j k ks)

theorem insertByScoreDesc_sorted (j : Job) (l : List Job)
    (hl : l.Pairwise (fun a b => b.match_score ≤ a.match_score)) :
    (insertByScoreDesc j l).Pairwise (fun a b => b.match_score ≤ a.match_score) := by
  induction l with
  | nil => simp [insertByScoreDesc]
  | cons k ks ih =>
    rcases List.pairwise_cons.mp hl with ⟨hk, hks⟩
    rw [insertByScoreDesc]
    by_cases h : k.match_score < j.match_score
    · rw [if_pos h]
      refine List.pairwise_cons.mpr ⟨?_, hl⟩
      intro b hb
      rcases List.mem_cons.mp hb with hb | hb
      · subst hb
        exact le_of_lt h
      · exact le_trans (hk b hb) (le_of_lt h)
    · rw [if_neg h]
      refine List.pairwise_cons.mpr ⟨?_, ih hks⟩
      intro b hb
      rcases List.mem_cons.mp ((insertByScoreDesc_perm j ks).mem_iff.mp hb)
        with hb2 | hb2
      · subst hb2
        exact le_of_not_lt h
      · exact hk b hb2

theorem insertByScoreDesc_filter (j : Job) (l : List Job) (q : ℚ)
    (hl : l.Pairwise (fun a b => b.match_score ≤ a.match_score)) :
    (insertByScoreDesc j l).filter (fun k => decide (k.match_score = q))
      = if j.match_score = q
        then l.filter (fun k => decide (k.match_score = q)) ++ [j]
        else l.filter (fun k => decide (k.match_score = q)) := by
  induction l with
  | nil =>
    by_cases hj : j.match_score = q
    · simp [insertByScoreDesc, hj]
    · simp [insertByScoreDesc, hj]
  | cons k ks ih =>
    rcases List.pairwise_cons.mp hl with ⟨hk, hks⟩
    rw [insertByScoreDesc]
    by_cases h : k.match_score < j.match_score
    · rw [if_pos h]
      by_cases hj : j.match_score = q
      · rw [if_pos hj]
        have hnil : (k :: ks).filter (fun x => decide (x.match_score = q)) = [] := by
          rw [List.filter_eq_nil_iff]
          intro x hx
          have hxle : x.match_score ≤ k.match_score := by
            rcases List.mem_cons.mp hx with hx2 | hx2
            · subst hx2; exact le_refl _
            · exact hk x hx2
          have hlt : x.match_score < q := lt_of_le_of_lt hxle (hj ▸ h)
          simp [ne_of_lt hlt]
        rw [hnil, List.nil_append]
        rw [List.filter_cons_of_pos (by simp [hj]), hnil]
      · rw [if_neg hj]
        rw [List.filter_cons_of_neg (by simp [hj])]
    · rw [if_neg h]
      by_cases hkq : k.match_score = q
      · rw [List.filter_cons_of_pos (by simp [hkq]), ih hks,
          List.filter_cons_of_pos (by simp [hkq])]
        by_cases hj : j.match_score = q
        · rw [if_pos hj, if_pos hj, List.cons_append]
        · rw [if_neg hj, if_neg hj]
      · rw [List.filter_cons_of_neg (by simp [hkq]), ih hks,
          List.filter_cons_of_neg (by simp [hkq])]

theorem sortByScoreDesc_append_singleton (l : List Job) (j : Job) :
    sortByScoreDesc (l ++ [j]) = insertByScoreDesc j (sortByScoreDesc l) := by
  unfold sortByScoreDesc
  rw [List.foldl_append]
  rfl

theorem sortByScoreDesc_perm (l : List Job) : List.Perm (sortByScoreDesc l) l := by
  induction l using List.reverseRecOn with
  | nil => exact List.Perm.refl _
  | append_singleton xs x ih =>
    rw [sortByScoreDesc_append_singleton]
    exact ((insertByScoreDesc_perm x _).trans (ih.cons x)).trans
      (List.perm_append_singleton x xs).symm

theorem sortByScoreDesc_sorted (l : List Job) :
    (sortByScoreDesc l).Pairwise (fun a b => b.match_score ≤ a.match_score) := by
  induction l using List.reverseRecOn with
  | nil => simp [sortByScoreDesc]
  | append_singleton xs x ih =>
    rw [sortByScoreDesc_append_singleton]
    exact insertByScoreDesc_sorted x _ ih

theorem sortByScoreDesc_filter (l : List Job) (q : ℚ) :
    (sortByScoreDesc l).filter (fun k => decide (k.match_score = q))
      = l.filter (fun k => decide (k.match_score = q)) := by
  induction l using List.reverseRecOn with
  | nil => simp [sortByScoreDesc]
  | append_singleton xs x ih =>
    rw [sortByScoreDesc_append_singleton,
      insertByScoreDesc_filter x _ q (sortByScoreDesc_sorted xs), List.filter_append]
    by_cases hx : x.match_score = q
    · rw [if_pos hx, ih, List.filter_cons_of_pos (by simp [hx]), List.filter_nil]
    · rw [if_neg hx, ih, List.filter_cons_of_neg (by simp [hx]), List.filter_nil,
        List.append_nil]

theorem apply_loop_count (hasResume : Bool) (outcome : Job → ApplyOutcome)
    (maxa : Nat) (j : Job) :
    ∀ (l : List Job) (st : RunState),
      (apply_to_easy_apply_jobs hasResume outcome maxa l st).applied_jobs.count j
        + (apply_to_easy_apply_jobs hasResume outcome maxa l st).failed_jobs.count j
        + (apply_to_easy_apply_jobs hasResume outcome maxa l st).unsuitable_jobs.count j
      ≤ st.applied_jobs.count j + st.failed_jobs.count j
        + st.unsuitable_jobs.count j + l.count j := by
  intro l
  induction l with
  | nil =>
    intro st
    simp [apply_to_easy_apply_jobs]
  | cons x rest ih =>
    intro st
    rw [apply_to_easy_apply_jobs]
    by_cases hcap : maxa ≤ st.applications_sent
    · rw [if_pos hcap]
      have hx : st.applied_jobs.count j + st.failed_jobs.count j
          + st.unsuitable_jobs.count j
          ≤ st.applied_jobs.count j + st.failed_jobs.count j
            + st.unsuitable_jobs.count j + (x :: rest).count j :=
        Nat.le_add_right _ _
      exact hx
    · rw [if_neg hcap]
      by_cases hsuit : (hasResume && !x.is_suitable) = true
      · rw [if_pos hsuit]
        have := ih { st with unsuitable_jobs := st.unsuitable_jobs ++ [x] }
        simp only [List.count_append, List.count_cons] at this ⊢
        by_cases hjx : j = x
        · simp only [hjx, beq_self_eq_true, if_pos] at this ⊢
          simp at this
          omega
        · have hb : ¬(x == j) = true := by
            simp
            intro he
            exact hjx he.symm
          simp [hb] at this ⊢
          omega
      · rw [if_neg hsuit]
        cases ho : outcome x with
        | noButton =>
          simp only [apply_to_job, ho]
          rw [if_neg (show ¬(false = true) by simp)]
          have := ih st
          simp only [List.count_cons] at this ⊢
          omega
        | submitted =>
          simp only [apply_to_job, ho]
          simp only [if_true]
          have := ih { st with
            applied_jobs := st.applied_jobs ++ [x],
            applications_sent := st.applications_sent + 1,
            suitable_jobs := st.suitable_jobs ++ [x] }
          simp only [List.count_append, List.count_cons] at this ⊢
          by_cases hjx : j = x
          · simp only [hjx, beq_self_eq_true, if_pos] at this ⊢
            simp at this
            omega
          · have hb : ¬(x == j) = true := by
              simp
              intro he
              exact hjx he.symm
            simp [hb] at this ⊢
            omega
        | notSubmitted =>
          simp only [apply_to_job, ho]
          rw [if_neg (show ¬(false = true) by simp)]
          have := ih { st with failed_jobs := st.failed_jobs ++ [x] }
          simp only [List.count_append, List.count_cons] at this ⊢
          by_cases hjx : j = x
          · simp only [hjx, beq_self_eq_true, if_pos] at this ⊢
            simp at this
            omega
          · have hb : ¬(x == j) = true := by
              simp
              intro he
              exact hjx he.symm
            simp [hb] at this ⊢
            omega

theorem happLoopSteps_le (env : Nat → PageObs) :
    ∀ (fuel clicks : Nat), (happLoopSteps env fuel clicks).2 ≤ fuel := by
  intro fuel
  induction fuel with
  | zero => intro c; simp [happLoopSteps]
  | succ f ih =>
    intro c
    rw [happLoopSteps]
    cases (env c).submit with
    | none => simp
    | some se =>
      by_cases hsucc : (se && (env (if se then c + 1 else c)).success) = true
      · simp only [hsucc, if_true]
        simp
      · simp only [hsucc, if_false]
        cases (env (if se then c + 1 else c)).next with
        | none => simp
        | some ne =>
          cases ne with
          | true => exact Nat.succ_le_succ (ih _)
          | false =>
            cases (env (if se then c + 1 else c)).review with
            | none => simp
            | some re =>
              cases re with
              | true => exact Nat.succ_le_succ (ih _)
              | false => exact Nat.succ_le_succ (ih _)

theorem happLoopSteps_fst (env : Nat → PageObs) :
    ∀ (fuel clicks : Nat), (happLoopSteps env fuel clicks).1 = happLoop env fuel clicks := by
  intro fuel
  induction fuel with
  | zero => intro c; rfl
  | succ f ih =>
    intro c
    rw [happLoopSteps, happLoop]
    cases (env c).submit with
    | none => rfl
    | some se =>
      by_cases hsucc : (se && (env (if se then c + 1 else c)).success) = true
      · simp only [hsucc, if_true]
      · simp only [hsucc, if_false]
        cases (env (if se then c + 1 else c)).next with
        | none => rfl
        | some ne =>
          cases ne with
          | true => exact ih _
          | false =>
            cases (env (if se then c + 1 else c)).review with
            | none => rfl
            | some re =>
              cases re with
              | true => exact ih _
              | false => exact ih _

theorem happLoop_eq_amended (env : Nat → PageObs) :
    ∀ (fuel clicks : Nat), happLoop env fuel clicks = happAmendedLoop env fuel clicks := by
  intro fuel
  induction fuel with
  | zero => intro _; rfl
  | succ f ih =>
    intro c
    rw [happLoop, happAmendedLoop, stepAction]
    cases (env c).submit with
    | none =>
      cases (env c).success
      · simp
      · simp
    | some se =>
      cases se with
      | false =>
        simp only [Bool.false_and, Bool.false_eq_true, if_false]
        rw [afterSubmitCheck]
        cases (env c).next with
        | none =>
          cases (env c).success
          · simp
          · simp
        | some ne =>
          cases ne with
          | true => simp [ih]
          | false =>
            cases (env c).review with
            | none =>
              cases (env c).success
              · simp
              · simp
            | some re =>
              cases re with
              | true => simp [ih]
              | false => simp [ih]
      | true =>
        simp only [Bool.true_and, if_true]
        cases hsucc1 : (env (c + 1)).success
        · simp only [hsucc1, Bool.false_eq_true, if_false]
          rw [afterSubmitCheck]
          cases (env (c + 1)).next with
          | none => simp [hsucc1]
          | some ne =>
            cases ne with
            | true => simp [ih]
            | false =>
              cases (env (c + 1)).review with
              | none => simp [hsucc1]
              | some re =>
                cases re with
                | true => simp [ih]
                | false => simp [ih]
        · simp [hsucc1]

/-! ### Concrete instances used by the claim theorems -/

/-- A small parsed résumé (one extracted skill, raw text retained). -/
def rdEx : ResumeData :=
  ⟨[("programming", ["python"])], "unknown", 0, ⟨none⟩, "python developer"⟩

/-- A wizard whose first page has no Submit control but an enabled Next
control; after that click, Submit is present and enabled, and clicking it
makes the success indicator appear. -/
def env0 : Nat → PageObs := fun n =>
  if n = 0 then ⟨none, some true, none, false⟩
  else if n = 1 then ⟨some true, none, none, false⟩
  else ⟨none, none, none, true⟩

/-- A wizard every page of which shows Submit and Review present but
disabled, Next present and enabled, and no success indicator: an endless
sequence of Next-only steps. -/
def envNextOnly : Nat → PageObs := fun _ => ⟨some false, some true, some false, false⟩

/-- The two-document corpus as claim C5 words it: document 2 is the job
title concatenated with the job description. -/
def scoringCorpusClaim (rd : ResumeData) (job_description job_title : String) :
    List String :=
  [rd.raw_text ++ " " ++ format_resume_skills rd, job_title ++ " " ++ job_description]

/-- The score as a function of the vectorizer result on the corpus and of the
skill boost. -/
def calcFromCorpus (r : Except String ℚ) (boost : ℚ) : ℚ :=
  match r with
  | Except.error _ => 0
  | Except.ok s => min (s * (7 / 10) + boost * (3 / 10)) 1

/-- A discovered quick-apply listing. -/
def jobEx : Job := ⟨"T", "C", "L", "u", true, "", 0, false, ""⟩

/-! ### The claims -/

/-- C8 (confirmed): for every document text the extracted `yearsExperience`
is a `Nat` (hence non-negative) bounded below by every numeric match of the
three years patterns, is itself one of the matches whenever any exists, and
is zero when none exists; on the example text of the spec the result is 7. -/
theorem C8_years_experience :
    (∀ (t : String) (y : Nat), y ∈ yearsMatches t → y ≤ extract_years_experience t)
    ∧ (∀ t : String, yearsMatches t ≠ [] → extract_years_experience t ∈ yearsMatches t)
    ∧ (∀ t : String, yearsMatches t = [] → extract_years_experience t = 0)
    ∧ extract_years_experience "3 years experience and 7+ years in industry" = 7 := by
  refine ⟨fun t y hy => le_maxOr0 _ y hy, fun t h => maxOr0_mem _ h, fun t h => ?_, ?_⟩
  · show maxOr0 (yearsMatches t) = 0
    rw [h]
    rfl
  · decide

/-- C2 counterexample: a wizard page with the Submit control absent and an
enabled Next control.  The code abandons immediately (absence of Submit jumps
to the final success check instead of falling through to Next), while the
machine described by the claim clicks Next, then Submit, and reports
`Submitted`.  So "a control that is present but disabled is treated
identically to a control that is not found" is false of the code. -/
theorem C2_counterexample :
    handle_application_process env0 = false ∧ handleApplicationSpec env0 = true :=
  ⟨rfl, rfl⟩

/-- C2 (amended): at each step the three controls are checked in the fixed
priority order Submit, Next, Review; a control that is *present but disabled*
falls through to the next control type; but a control that is *not found*
aborts the step sequence — the machine then checks once for the success
indicator and terminates with `Submitted` or `Abandoned`.  Formally, the
embedded loop coincides with the `stepAction`-machine implementing exactly
that reading. -/
theorem C2_control_priority_amended (env : Nat → PageObs) :
    handle_application_process env = happAmendedLoop env 5 0 :=
  happLoop_eq_amended env 5 0

/-- C4 (confirmed): the application loop executes at most 5 iterations for
every environment, the instrumented loop computes the same verdict as the
code, and on an endless wizard whose only enabled control is Next the result
is Abandoned (`false`) at exactly the step cap 5. -/
theorem C4_step_cap :
    (∀ (env : Nat → PageObs) (clicks : Nat), (happLoopSteps env 5 clicks).2 ≤ 5)
    ∧ (∀ env : Nat → PageObs,
        (happLoopSteps env 5 0).1 = handle_application_process env)
    ∧ handle_application_process envNextOnly = false
    ∧ (happLoopSteps envNextOnly 5 0).2 = 5 :=
  ⟨fun env c => happLoopSteps_le env 5 c,
   fun env => happLoopSteps_fst env 5 0,
   rfl, rfl⟩

/-- C5 counterexample: the corpus the code builds is not the corpus the claim
describes — document 2 is the lower-cased job description alone; the job
title (here `"Dev"`) never enters it. -/
theorem C5_counterexample :
    scoringCorpus rdEx "Engineer Role" ≠ scoringCorpusClaim rdEx "Engineer Role" "Dev" := by
  decide

/-- C5 (amended): for every scoring invocation the two-document corpus
consists of (document 1) the résumé raw text concatenated with the flattened
skills rendering and (document 2) the lower-cased job description — the job
title is not part of the corpus and reaches the score only through the skill
boost. -/
theorem C5_corpus_amended (tf : List String → Except String ℚ)
    (rd : ResumeData) (d t : String) :
    scoringCorpus rd d = [rd.raw_text ++ " " ++ format_resume_skills rd, strLower d]
    ∧ calculate_job_match_score tf rd d t
        = calcFromCorpus (tf (scoringCorpus rd d)) (calculate_skill_match_boost rd d t) := by
  refine ⟨rfl, ?_⟩
  unfold calculate_job_match_score calcFromCorpus
  cases tf (scoringCorpus rd d) with
  | error e => rfl
  | ok s => rfl


theorem fmt2_zero : fmt2 0 = "0.00" := by
  have hr : round100 0 = 0 := by
    unfold round100 ratFloorZ
    norm_num
  unfold fmt2
  rw [hr]
  decide

/-- Characterization of `is_suitable_job` when the vectorization raises: the
error is swallowed inside `calculate_job_match_score`, the score degrades to
`0`, and the ordinary template produces the explanation. -/
theorem is_suitable_job_error (tf : List String → Except String ℚ)
    (rd : ResumeData) (d t : String) (ms : ℚ) (e : String)
    (he : tf (scoringCorpus rd d) = Except.error e) :
    is_suitable_job tf rd d t ms
      = (decide (ms ≤ 0), 0,
         if ms ≤ 0 then
           "Good match (Score: 0.00) - Skills and experience align well"
         else
           "Poor match (Score: 0.00) - Limited skill overlap") := by
  have hsc : calculate_job_match_score tf rd d t = 0 := by
    unfold calculate_job_match_score
    rw [he]
  unfold is_suitable_job
  rw [hsc]
  simp only [fmt2_zero]
  by_cases hms : ms ≤ 0
  · simp [hms]
  · simp [hms]

/-- C3 counterexample: with threshold `0`, an invocation whose internal
vectorization raises (`"boom"`) is classified *suitable*, with score `0` and
the ordinary good-match explanation — not `(false, 0.0, …error text…)` as the
claim states; the error text appears nowhere in the explanation. -/
theorem C3_counterexample :
    (is_suitable_job (fun _ => Except.error "boom") rdEx "d" "t" 0).1 = true
    ∧ (is_suitable_job (fun _ => Except.error "boom") rdEx "d" "t" 0).2.1 = 0
    ∧ pyIn "boom" (is_suitable_job (fun _ => Except.error "boom") rdEx "d" "t" 0).2.2
        = false := by
  rw [is_suitable_job_error (fun _ => Except.error "boom") rdEx "d" "t" 0 "boom" rfl]
  refine ⟨by norm_num, rfl, ?_⟩
  rw [if_pos (le_refl (0 : ℚ))]
  decide

/-- C3 (amended): for every invocation `isSuitable = (minScore ≤ score)`, and
the scorer is a total function (no exception escapes it — every failure of the
vectorization is caught inside `calculate_job_match_score`).  An internal
error yields score `0.0` and the *ordinary templated explanation* for score
zero — the error text is not embedded, and the job is classified unsuitable
if and only if `minScore > 0`. -/
theorem C3_scorer_boundary_amended (tf : List String → Except String ℚ)
    (rd : ResumeData) (d t : String) (ms : ℚ) :
    (is_suitable_job tf rd d t ms).1
      = decide (ms ≤ (is_suitable_job tf rd d t ms).2.1)
    ∧ (∀ e, tf (scoringCorpus rd d) = Except.error e →
        (is_suitable_job tf rd d t ms).2.1 = 0
        ∧ (is_suitable_job tf rd d t ms).2.2
            = (if ms ≤ 0 then
                "Good match (Score: 0.00) - Skills and experience align well"
              else
                "Poor match (Score: 0.00) - Limited skill overlap")) := by
  constructor
  · rfl
  · intro e he
    rw [is_suitable_job_error tf rd d t ms e he]
    exact ⟨rfl, rfl⟩

/-- Closed instance of the amended C3 at the default threshold 0.3 with a
forced vectorizer error. -/
theorem C3_scorer_boundary_amended_witness :
    (is_suitable_job (fun _ => Except.error "empty vocabulary") rdEx "d" "t" (3/10)).1
      = decide ((3/10 : ℚ)
          ≤ (is_suitable_job (fun _ => Except.error "empty vocabulary") rdEx "d" "t" (3/10)).2.1)
    ∧ (is_suitable_job (fun _ => Except.error "empty vocabulary") rdEx "d" "t" (3/10)).2.1 = 0
    ∧ (is_suitable_job (fun _ => Except.error "empty vocabulary") rdEx "d" "t" (3/10)).2.2
        = "Poor match (Score: 0.00) - Limited skill overlap" := by
  have h := C3_scorer_boundary_amended (fun _ => Except.error "empty vocabulary")
    rdEx "d" "t" (3/10)
  refine ⟨h.1, (h.2 "empty vocabulary" rfl).1, ?_⟩
  rw [(h.2 "empty vocabulary" rfl).2, if_neg (by norm_num)]

/-- C6 (confirmed): whenever the vectorization succeeds with a cosine
similarity in `[0,1]` (the library guarantee for TF-IDF vectors), the returned
score equals `clamp(0.7·textSimilarity + 0.3·skillBoost, 0, 1)` — with
`skillBoost` exactly as the claim words it (`skillBoostSpec`) — and is
therefore in `[0,1]`. -/
theorem C6_score_formula (tf : List String → Except String ℚ) (rd : ResumeData)
    (d t : String) (s : ℚ) (hok : tf (scoringCorpus rd d) = Except.ok s)
    (h0 : 0 ≤ s) :
    calculate_job_match_score tf rd d t
      = clamp01 (7 / 10 * s + 3 / 10 * skillBoostSpec rd d t)
    ∧ 0 ≤ calculate_job_match_score tf rd d t
    ∧ calculate_job_match_score tf rd d t ≤ 1 := by
  have hb0 := skillBoostSpec_nonneg rd d t
  have hcalc : calculate_job_match_score tf rd d t
      = min (s * (7 / 10) + skillBoostSpec rd d t * (3 / 10)) 1 := by
    unfold calculate_job_match_score
    rw [hok]
    simp only [skill_boost_eq_spec]
  have hx : (0 : ℚ) ≤ s * (7 / 10) + skillBoostSpec rd d t * (3 / 10) := by
    have := mul_nonneg h0 (by norm_num : (0 : ℚ) ≤ 7 / 10)
    have := mul_nonneg hb0 (by norm_num : (0 : ℚ) ≤ 3 / 10)
    linarith
  refine ⟨?_, ?_, ?_⟩
  · rw [hcalc]
    unfold clamp01
    rw [max_eq_left (by linarith)]
    ring_nf
  · rw [hcalc]
    exact le_min hx (by norm_num)
  · rw [hcalc]
    exact min_le_right _ _

/-- Closed instance of C6 at a concrete résumé, job text and similarity. -/
theorem C6_score_formula_witness :
    calculate_job_match_score (fun _ => Except.ok (1/2)) rdEx "python api work" "Dev"
      = clamp01 (7 / 10 * (1/2) + 3 / 10 * skillBoostSpec rdEx "python api work" "Dev")
    ∧ 0 ≤ calculate_job_match_score (fun _ => Except.ok (1/2)) rdEx "python api work" "Dev"
    ∧ calculate_job_match_score (fun _ => Except.ok (1/2)) rdEx "python api work" "Dev" ≤ 1 :=
  C6_score_formula (fun _ => Except.ok (1/2)) rdEx "python api work" "Dev" (1/2)
    rfl (by norm_num)

/-- C7 (confirmed): for every document text and every catalog category, a
token is extracted for that category iff it is a catalog entry of the
category and occurs as a contiguous substring of the lower-cased text — in
particular extracted skills are a subset of the catalog, and there is no
stemming or word-boundary enforcement. -/
theorem C7_skill_extraction (text cat tok : String) (cats : List String)
    (hcat : (cat, cats) ∈ tech_skills) :
    tok ∈ skillsFor (analyze_resume_text text) cat ↔
      tok ∈ cats ∧ tok.data <:+: (strLower text).data := by
  have hnd : (tech_skills.map Prod.fst).Nodup := by decide
  have hl : skillsFor (analyze_resume_text text) cat
      = cats.filter (fun sk => pyIn sk (strLower text)) := by
    show lookupCat (extract_skills (strLower text)) cat = _
    exact lookupCat_map tech_skills
      (fun _ sl => sl.filter (fun sk => pyIn sk (strLower text))) cat cats hcat hnd
  rw [hl, List.mem_filter]
  constructor
  · rintro ⟨hmem, hp⟩
    exact ⟨hmem, (isSubC_iff _ _).mp hp⟩
  · rintro ⟨hmem, hp⟩
    exact ⟨hmem, (isSubC_iff _ _).mpr hp⟩

/-- Closed instance of C7: the catalog token `"go"` is extracted from
`"Golang-based services"` — the known substring false positive the
specification requires. -/
theorem C7_skill_extraction_witness :
    ("programming", ["python", "java", "javascript", "c++", "c#", "php", "ruby",
      "go", "rust", "swift", "kotlin"]) ∈ tech_skills
    ∧ "go" ∈ skillsFor (analyze_resume_text "Golang-based services") "programming" := by
  refine ⟨by decide, ?_⟩
  refine (C7_skill_extraction "Golang-based services" "programming" "go"
    ["python", "java", "javascript", "c++", "c#", "php", "ruby",
     "go", "rust", "swift", "kotlin"] (by decide)).mpr ⟨by decide, ?_⟩
  decide

/-- C10 (confirmed): whenever the phone pattern matches, the stored phone
value is exactly the (possibly empty) country-code capture group of the first
match — never the full matched number (the match extends the group by the
10-to-14-character national part); in particular a first match without a
country-code prefix stores the empty string. -/
theorem C10_phone_group_only (text : String) (m : PhoneMatch)
    (ms : List PhoneMatch) (h : phoneMatchesOf text = m :: ms) :
    (extract_contact_info text).phone = some (String.mk m.group)
    ∧ m.full ≠ m.group
    ∧ (extract_contact_info text).phone ≠ some (String.mk m.full)
    ∧ (m.group = [] → (extract_contact_info text).phone = some "") := by
  have h1 : (extract_contact_info text).phone = some (String.mk m.group) := by
    show ((phoneMatchesOf text).head?.map (fun m => String.mk m.group)) = _
    rw [h]
    rfl
  have hm : m ∈ phoneMatchesOf text := by
    rw [h]
    exact List.mem_cons_self m ms
  obtain ⟨t1, ht1, hf⟩ := phoneFindAux_proper text.data.length text.data m hm
  have hne : m.full ≠ m.group := by
    rw [hf]
    intro he
    have hlen := congrArg List.length he
    rw [List.length_append] at hlen
    omega
  refine ⟨h1, hne, ?_, ?_⟩
  · rw [h1]
    intro he
    exact hne (congrArg String.data (Option.some.inj he)).symm
  · intro hg
    rw [h1, hg]

/-- Closed instance of C10: the first match in
`"call 123-456-7890 now"` has no country code, and the stored phone field is
the empty string rather than `"123-456-7890"`. -/
theorem C10_phone_group_only_witness :
    (extract_contact_info "call 123-456-7890 now").phone = some ""
    ∧ (extract_contact_info "call 123-456-7890 now").phone
        ≠ some (String.mk "123-456-7890".data) := by
  have h : phoneMatchesOf "call 123-456-7890 now"
      = ⟨[], "123-456-7890".data⟩ :: [] := by decide
  have hc := C10_phone_group_only "call 123-456-7890 now"
    ⟨[], "123-456-7890".data⟩ [] h
  exact ⟨hc.2.2.2 rfl, hc.2.2.1⟩

/-- C9 (confirmed): categorization scores each discovered listing (when a
résumé was supplied) and partitions the scored listings by `hasQuickApply`:
the two outputs concatenate to a permutation of the scored input, members of
the first all have `hasQuickApply = true` and of the second all `false`; with
a résumé supplied each partition is sorted descending by `matchScore` and the
sort is stable — for every score value, the listings carrying it appear in
exactly their discovery order (the filtered sublists coincide); with no
résumé the partitions are exactly the filters of the input, in discovery
order. -/
theorem C9_categorization (hasResume : Bool) (getDesc : String → String)
    (matcher : String → String → Bool × ℚ × String) (jobs : List Job) :
    List.Perm
      ((analyze_and_categorize_jobs hasResume getDesc matcher jobs).1
        ++ (analyze_and_categorize_jobs hasResume getDesc matcher jobs).2)
      (jobs.map (scoreJob hasResume getDesc matcher))
    ∧ (∀ j ∈ (analyze_and_categorize_jobs hasResume getDesc matcher jobs).1,
        j.has_easy_apply = true)
    ∧ (∀ j ∈ (analyze_and_categorize_jobs hasResume getDesc matcher jobs).2,
        j.has_easy_apply = false)
    ∧ (hasResume = true →
        List.Pairwise (fun a b => b.match_score ≤ a.match_score)
          (analyze_and_categorize_jobs hasResume getDesc matcher jobs).1
        ∧ List.Pairwise (fun a b => b.match_score ≤ a.match_score)
          (analyze_and_categorize_jobs hasResume getDesc matcher jobs).2
        ∧ (∀ q : ℚ,
            ((analyze_and_categorize_jobs hasResume getDesc matcher jobs).1).filter
                (fun k => decide (k.match_score = q))
              = ((jobs.map (scoreJob hasResume getDesc matcher)).filter
                  (fun k => k.has_easy_apply)).filter
                    (fun k => decide (k.match_score = q)))
        ∧ (∀ q : ℚ,
            ((analyze_and_categorize_jobs hasResume getDesc matcher jobs).2).filter
                (fun k => decide (k.match_score = q))
              = ((jobs.map (scoreJob hasResume getDesc matcher)).filter
                  (fun k => !k.has_easy_apply)).filter
                    (fun k => decide (k.match_score = q))))
    ∧ (hasResume = false →
        analyze_and_categorize_jobs hasResume getDesc matcher jobs
          = ((jobs.map (scoreJob hasResume getDesc matcher)).filter
               (fun k => k.has_easy_apply),
             (jobs.map (scoreJob hasResume getDesc matcher)).filter
               (fun k => !k.has_easy_apply))) := by
  have hcat : categorizeLoop hasResume getDesc matcher jobs ([], [])
      = ((jobs.map (scoreJob hasResume getDesc matcher)).filter
           (fun k => k.has_easy_apply),
         (jobs.map (scoreJob hasResume getDesc matcher)).filter
           (fun k => !k.has_easy_apply)) := by
    rw [categorizeLoop_eq]
    simp
  cases hasResume with
  | false =>
    have hp : analyze_and_categorize_jobs false getDesc matcher jobs
        = ((jobs.map (scoreJob false getDesc matcher)).filter
             (fun k => k.has_easy_apply),
           (jobs.map (scoreJob false getDesc matcher)).filter
             (fun k => !k.has_easy_apply)) := by
      unfold analyze_and_categorize_jobs
      rw [hcat]
      simp
    rw [hp]
    refine ⟨List.filter_append_perm _ _, ?_, ?_, by simp, fun _ => rfl⟩
    · intro j hj
      exact List.of_mem_filter hj
    · intro j hj
      have := List.of_mem_filter hj
      simpa using this
  | true =>
    have hp : analyze_and_categorize_jobs true getDesc matcher jobs
        = (sortByScoreDesc ((jobs.map (scoreJob true getDesc matcher)).filter
             (fun k => k.has_easy_apply)),
           sortByScoreDesc ((jobs.map (scoreJob true getDesc matcher)).filter
             (fun k => !k.has_easy_apply))) := by
      unfold analyze_and_categorize_jobs
      rw [hcat]
      simp
    rw [hp]
    refine ⟨?_, ?_, ?_, fun _ => ⟨sortByScoreDesc_sorted _, sortByScoreDesc_sorted _,
      fun q => sortByScoreDesc_filter _ q, fun q => sortByScoreDesc_filter _ q⟩,
      fun hcon => absurd hcon (by decide)⟩
    · exact ((sortByScoreDesc_perm _).append (sortByScoreDesc_perm _)).trans
        (List.filter_append_perm _ _)
    · intro j hj
      exact List.of_mem_filter ((sortByScoreDesc_perm _).mem_iff.mp hj)
    · intro j hj
      have := List.of_mem_filter ((sortByScoreDesc_perm _).mem_iff.mp hj)
      simpa using this

/-- Closed instance of C9 at a concrete three-listing discovery with a résumé
supplied. -/
theorem C9_categorization_witness :
    List.Perm
      ((analyze_and_categorize_jobs true (fun _ => "d")
          (fun _ t => (true, if t = "A" then 1/2 else 1/2, "e"))
          [⟨"A", "c", "l", "uA", true, "", 0, true, ""⟩,
           ⟨"B", "c", "l", "uB", false, "", 0, true, ""⟩,
           ⟨"C", "c", "l", "uC", true, "", 0, true, ""⟩]).1
        ++ (analyze_and_categorize_jobs true (fun _ => "d")
          (fun _ t => (true, if t = "A" then 1/2 else 1/2, "e"))
          [⟨"A", "c", "l", "uA", true, "", 0, true, ""⟩,
           ⟨"B", "c", "l", "uB", false, "", 0, true, ""⟩,
           ⟨"C", "c", "l", "uC", true, "", 0, true, ""⟩]).2)
      ([⟨"A", "c", "l", "uA", true, "", 0, true, ""⟩,
        ⟨"B", "c", "l", "uB", false, "", 0, true, ""⟩,
        ⟨"C", "c", "l", "uC", true, "", 0, true, ""⟩].map
          (scoreJob true (fun _ => "d")
            (fun _ t => (true, if t = "A" then 1/2 else 1/2, "e")))) :=
  (C9_categorization true (fun _ => "d")
    (fun _ t => (true, if t = "A" then 1/2 else 1/2, "e"))
    [⟨"A", "c", "l", "uA", true, "", 0, true, ""⟩,
     ⟨"B", "c", "l", "uB", false, "", 0, true, ""⟩,
     ⟨"C", "c", "l", "uC", true, "", 0, true, ""⟩]).1

theorem categorize_fst_perm (hasResume : Bool) (getDesc : String → String)
    (matcher : String → String → Bool × ℚ × String) (jobs : List Job) :
    List.Perm (analyze_and_categorize_jobs hasResume getDesc matcher jobs).1
      ((jobs.map (scoreJob hasResume getDesc matcher)).filter
        (fun k => k.has_easy_apply)) := by
  have hcat : categorizeLoop hasResume getDesc matcher jobs ([], [])
      = ((jobs.map (scoreJob hasResume getDesc matcher)).filter
           (fun k => k.has_easy_apply),
         (jobs.map (scoreJob hasResume getDesc matcher)).filter
           (fun k => !k.has_easy_apply)) := by
    rw [categorizeLoop_eq]
    simp
  unfold analyze_and_categorize_jobs
  rw [hcat]
  cases hasResume with
  | false => simp
  | true =>
    simp only [if_true]
    exact sortByScoreDesc_perm _

theorem categorize_snd_perm (hasResume : Bool) (getDesc : String → String)
    (matcher : String → String → Bool × ℚ × String) (jobs : List Job) :
    List.Perm (analyze_and_categorize_jobs hasResume getDesc matcher jobs).2
      ((jobs.map (scoreJob hasResume getDesc matcher)).filter
        (fun k => !k.has_easy_apply)) := by
  have hcat : categorizeLoop hasResume getDesc matcher jobs ([], [])
      = ((jobs.map (scoreJob hasResume getDesc matcher)).filter
           (fun k => k.has_easy_apply),
         (jobs.map (scoreJob hasResume getDesc matcher)).filter
           (fun k => !k.has_easy_apply)) := by
    rw [categorizeLoop_eq]
    simp
  unfold analyze_and_categorize_jobs
  rw [hcat]
  cases hasResume with
  | false => simp
  | true =>
    simp only [if_true]
    exact sortByScoreDesc_perm _

/-- The outcome-relevant composition of `run_enhanced_automation`: categorize
the discovered listings, then run the application loop over the EasyApply
partition starting from empty outcome collections. -/
def runOutcome (hasResume : Bool) (getDesc : String → String)
    (matcher : String → String → Bool × ℚ × String) (outcome : Job → ApplyOutcome)
    (max_applications : Nat) (jobs : List Job) : RunState :=
  apply_to_easy_apply_jobs hasResume outcome max_applications
    (analyze_and_categorize_jobs hasResume getDesc matcher jobs).1 initialRunState

/-- C1 counterexample: a single discovered listing with `hasQuickApply =
true`, no résumé, and a driver that cannot locate the EasyApply button.  The
listing is routed to the EasyApply partition, the attempt returns `False`
without recording anything, and the listing ends in *none* of
{applied, failed, skippedUnsuitable} — not "exactly one" as the claim states. -/
theorem C1_counterexample :
    (analyze_and_categorize_jobs false (fun _ => "") (fun _ _ => (false, 0, "")) [jobEx]).1
      = [jobEx]
    ∧ jobEx.has_easy_apply = true
    ∧ (runOutcome false (fun _ => "") (fun _ _ => (false, 0, ""))
        (fun _ => ApplyOutcome.noButton) 50 [jobEx]).applied_jobs = []
    ∧ (runOutcome false (fun _ => "") (fun _ _ => (false, 0, ""))
        (fun _ => ApplyOutcome.noButton) 50 [jobEx]).failed_jobs = []
    ∧ (runOutcome false (fun _ => "") (fun _ _ => (false, 0, ""))
        (fun _ => ApplyOutcome.noButton) 50 [jobEx]).unsuitable_jobs = [] :=
  ⟨rfl, rfl, rfl, rfl, rfl⟩

/-- C1 (amended): when the scored listings are pairwise distinct, every
listing with `hasQuickApply = false` ends in the manual-review collection and
in none of {applied, failed, skippedUnsuitable}; every listing landing in one
of the three outcome collections is a quick-apply listing from the EasyApply
partition and not in manual review; and every listing ends in *at most* one
of the three outcome collections (counting multiplicity).  Exactly-one fails:
a listing beyond the `max_applications` cap, or one whose EasyApply button is
not found, ends in no collection (see the counterexample). -/
theorem C1_outcome_sets_amended (hasResume : Bool) (getDesc : String → String)
    (matcher : String → String → Bool × ℚ × String) (outcome : Job → ApplyOutcome)
    (max_applications : Nat) (jobs : List Job)
    (hnd : (jobs.map (scoreJob hasResume getDesc matcher)).Nodup) :
    (∀ j ∈ jobs.map (scoreJob hasResume getDesc matcher), j.has_easy_apply = false →
        j ∈ (analyze_and_categorize_jobs hasResume getDesc matcher jobs).2
        ∧ j ∉ (runOutcome hasResume getDesc matcher outcome max_applications jobs).applied_jobs
        ∧ j ∉ (runOutcome hasResume getDesc matcher outcome max_applications jobs).failed_jobs
        ∧ j ∉ (runOutcome hasResume getDesc matcher outcome max_applications jobs).unsuitable_jobs)
    ∧ (∀ j : Job,
        (j ∈ (runOutcome hasResume getDesc matcher outcome max_applications jobs).applied_jobs
          ∨ j ∈ (runOutcome hasResume getDesc matcher outcome max_applications jobs).failed_jobs
          ∨ j ∈ (runOutcome hasResume getDesc matcher outcome max_applications jobs).unsuitable_jobs) →
          j.has_easy_apply = true
          ∧ j ∈ (analyze_and_categorize_jobs hasResume getDesc matcher jobs).1
          ∧ j ∉ (analyze_and_categorize_jobs hasResume getDesc matcher jobs).2)
    ∧ (∀ j : Job,
        (runOutcome hasResume getDesc matcher outcome max_applications jobs).applied_jobs.count j
          + (runOutcome hasResume getDesc matcher outcome max_applications jobs).failed_jobs.count j
          + (runOutcome hasResume getDesc matcher outcome max_applications jobs).unsuitable_jobs.count j
        ≤ 1) := by
  have hfst := categorize_fst_perm hasResume getDesc matcher jobs
  have hsnd := categorize_snd_perm hasResume getDesc matcher jobs
  have hNodupEasy : (analyze_and_categorize_jobs hasResume getDesc matcher jobs).1.Nodup :=
    hfst.nodup_iff.mpr (hnd.filter _)
  have hcount : ∀ j : Job,
      (runOutcome hasResume getDesc matcher outcome max_applications jobs).applied_jobs.count j
        + (runOutcome hasResume getDesc matcher outcome max_applications jobs).failed_jobs.count j
        + (runOutcome hasResume getDesc matcher outcome max_applications jobs).unsuitable_jobs.count j
      ≤ (analyze_and_categorize_jobs hasResume getDesc matcher jobs).1.count j := by
    intro j
    have := apply_loop_count hasResume outcome max_applications j
      (analyze_and_categorize_jobs hasResume getDesc matcher jobs).1 initialRunState
    simpa [initialRunState, runOutcome] using this
  have hcount1 : ∀ j : Job,
      (analyze_and_categorize_jobs hasResume getDesc matcher jobs).1.count j ≤ 1 :=
    fun j => List.nodup_iff_count_le_one.mp hNodupEasy j
  have hB : ∀ j : Job,
      (j ∈ (runOutcome hasResume getDesc matcher outcome max_applications jobs).applied_jobs
        ∨ j ∈ (runOutcome hasResume getDesc matcher outcome max_applications jobs).failed_jobs
        ∨ j ∈ (runOutcome hasResume getDesc matcher outcome max_applications jobs).unsuitable_jobs) →
        j.has_easy_apply = true
        ∧ j ∈ (analyze_and_categorize_jobs hasResume getDesc matcher jobs).1
        ∧ j ∉ (analyze_and_categorize_jobs hasResume getDesc matcher jobs).2 := by
    intro j hj
    have hpos : 0 < (analyze_and_categorize_jobs hasResume getDesc matcher jobs).1.count j := by
      have hc := hcount j
      rcases hj with h | h | h
      · have := List.count_pos_iff.mpr h
        omega
      · have := List.count_pos_iff.mpr h
        omega
      · have := List.count_pos_iff.mpr h
        omega
    have hmem : j ∈ (analyze_and_categorize_jobs hasResume getDesc matcher jobs).1 :=
      List.count_pos_iff.mp hpos
    have hhas : j.has_easy_apply = true :=
      List.of_mem_filter (hfst.mem_iff.mp hmem)
    refine ⟨hhas, hmem, ?_⟩
    intro h2
    have hneg := List.of_mem_filter (hsnd.mem_iff.mp h2)
    rw [hhas] at hneg
    cases hneg
  refine ⟨?_, hB, fun j => le_trans (hcount j) (hcount1 j)⟩
  intro j hjs hfalse
  refine ⟨hsnd.mem_iff.mpr (List.mem_filter.mpr ⟨hjs, by simp [hfalse]⟩), ?_, ?_, ?_⟩
  · intro h
    have := (hB j (Or.inl h)).1
    rw [hfalse] at this
    cases this
  · intro h
    have := (hB j (Or.inr (Or.inl h))).1
    rw [hfalse] at this
    cases this
  · intro h
    have := (hB j (Or.inr (Or.inr h))).1
    rw [hfalse] at this
    cases this

/-- Closed instance of the amended C1 at a concrete two-listing run. -/
theorem C1_outcome_sets_amended_witness :
    (⟨"B", "c", "l", "uB", false, "", 0, true, ""⟩ : Job)
        ∈ (analyze_and_categorize_jobs false (fun _ => "")
            (fun _ _ => (false, 0, "")) [jobEx,
              ⟨"B", "c", "l", "uB", false, "", 0, true, ""⟩]).2
    ∧ (⟨"B", "c", "l", "uB", false, "", 0, true, ""⟩ : Job)
        ∉ (runOutcome false (fun _ => "") (fun _ _ => (false, 0, ""))
            (fun _ => ApplyOutcome.submitted) 50
            [jobEx, ⟨"B", "c", "l", "uB", false, "", 0, true, ""⟩]).applied_jobs
    ∧ (runOutcome false (fun _ => "") (fun _ _ => (false, 0, ""))
        (fun _ => ApplyOutcome.submitted) 50
        [jobEx, ⟨"B", "c", "l", "uB", false, "", 0, true, ""⟩]).applied_jobs.count jobEx
      + (runOutcome false (fun _ => "") (fun _ _ => (false, 0, ""))
          (fun _ => ApplyOutcome.submitted) 50
          [jobEx, ⟨"B", "c", "l", "uB", false, "", 0, true, ""⟩]).failed_jobs.count jobEx
      + (runOutcome false (fun _ => "") (fun _ _ => (false, 0, ""))
          (fun _ => ApplyOutcome.submitted) 50
          [jobEx, ⟨"B", "c", "l", "uB", false, "", 0, true, ""⟩]).unsuitable_jobs.count jobEx
      ≤ 1 := by
  have h := C1_outcome_sets_amended false (fun _ => "") (fun _ _ => (false, 0, ""))
    (fun _ => ApplyOutcome.submitted) 50
    [jobEx, ⟨"B", "c", "l", "uB", false, "", 0, true, ""⟩]
    (by decide)
  have hb := h.1 ⟨"B", "c", "l", "uB", false, "", 0, true, ""⟩ (by decide) rfl
  exact ⟨hb.1, hb.2.1, h.2.2 jobEx⟩
